import Mathlib

/-!
Verification of the orchestration and result-classification engine of the
json-schema-test library (src/index.ts).  The engine drives schema validators
against declared test cases, classifies each run through one of three
protocols (synchronous, asynchronous-success, asynchronous-exception), and
dispatches assertion and hook side effects.

The embedding below translates the source functions (`doTest`, `testResults`,
`testException`, `suiteHooks`, `skipOrOnly`, `getFileFilter`, `getTestFiles`,
`addTests`/`testSchema` registration structure) into pure Lean functions.
Side effects (assertion calls and hook invocations) are reified as an event
trace.  JavaScript values are modelled by `JSVal`, with object identity made
explicit so that the host strict-equality primitive is structural equality on
the model.
-/

namespace JsonSchemaTest

/-- JavaScript runtime values, as far as the engine inspects them.
Objects (including arrays and promise objects) are identified by an explicit
reference number, so that Lean equality on `JSVal` is exactly the host `===`
primitive: two structurally equal but distinct objects carry distinct
reference numbers.  Floating point numbers do not occur in the engine. -/
inductive JSVal where
  | bool (b : Bool)
  | num (n : Int)
  | str (s : String)
  | obj (ref : Nat)
  | undef
  | null
  deriving DecidableEq, Repr

/-- Host strict equality `===` on the modelled values. -/
def jsEq (a b : JSVal) : Bool := decide (a = b)

/-- Host truthiness, as used by `if (valid)` and similar tests in the source. -/
def truthy : JSVal → Bool
  | .bool b => b
  | .num n => decide (n ≠ 0)
  | .str s => decide (s ≠ "")
  | .obj _ => true
  | .undef => false
  | .null => false

/-- Host loose equality `==`, used by `testException` for
`err.message == test.error` (src/index.ts line 283).  The values compared
there are error-message values against an expected error string or an absent
(`undefined`) expectation.  String-to-number and object-to-primitive
coercions never arise for these comparisons and are not modelled. -/
def looseEq : JSVal → JSVal → Bool
  | .undef, .undef => true
  | .undef, .null => true
  | .null, .undef => true
  | .null, .null => true
  | .bool a, .bool b => a == b
  | .str a, .str b => a == b
  | .num a, .num b => a == b
  | .obj a, .obj b => a == b
  | .num a, .bool b => a == (if b then (1 : Int) else 0)
  | .bool a, .num b => (if a then (1 : Int) else 0) == b
  | _, _ => false

/-- The `errors` value handed to `testResults`: either absent
(`null`/`undefined`, the falsy case) or an array of validation-error
details.  An array is truthy even when empty, exactly as in the host. -/
inductive ErrList where
  | null
  | arr (l : List JSVal)
  deriving DecidableEq, Repr

/-- The `skip`/`only` fields of options, files, test groups and test cases:
absent, a boolean, or a list of names (src/index.ts lines 27-28). -/
inductive SkipOnly where
  | undef
  | bool (b : Bool)
  | names (l : List String)
  deriving DecidableEq, Repr

/-- A schema value: an object (with the optional `description`/`id`/`$ref`
display fields read by `addTests` and an identity for `===`), a boolean
schema, a placeholder string, or absent. -/
inductive SchemaV where
  | sobj (description id ref : Option String) (oid : Nat)
  | sbool (b : Bool)
  | sstr (s : String)
  | sundef
  deriving DecidableEq, Repr

/-- A test case (the `Test` interface plus the dynamically read `dataFile`,
`skip` and `only` properties).  `valid` and `error` are `undef` when the
corresponding expectation is absent. -/
structure Test where
  description : String
  data : JSVal
  dataFile : Option String
  valid : JSVal
  error : JSVal
  only : SkipOnly
  skip : SkipOnly
  deriving DecidableEq, Repr

/-- How a thenable returned by `validator.validate` settles: it either
fulfills with a value or rejects with an error value carrying a `message`
and an optional `errors` array. -/
inductive Thenable where
  | fulfill (v : JSVal)
  | reject (message : JSVal) (errs : ErrList)
  deriving DecidableEq, Repr

/-- A validator as observed by one `doTest` run: the raw value returned by
`validate` (`retValue`), whether that value is a thenable and how it settles
(`thenable`), and the `errors` attribute as read right after the call. -/
structure Validator where
  retValue : JSVal
  thenable : Option Thenable
  errors : ErrList
  deriving DecidableEq, Repr

/-- The engine options consulted by `doTest`/`testResults`/`testException`/
`suiteHooks`: `async`, whether `asyncValid == "data"`, and whether the
`afterEach`/`afterError` hooks are configured.  (`log` only controls console
output, which is not part of the reified trace.) -/
structure Opts where
  async : Bool
  asyncValidData : Bool
  hasAfterEach : Bool
  hasAfterError : Bool
  deriving DecidableEq, Repr

/-- The result record built by `suiteHooks` (src/index.ts lines 310-319) and
handed to the hooks.  `valid` is `undef` and `errors` is `none` when the
corresponding arguments were omitted (the exception-mode call site). -/
structure TRes where
  passed : Bool
  validator : Validator
  schema : SchemaV
  data : JSVal
  valid : JSVal
  expected : JSVal
  expectedError : JSVal
  errors : Option ErrList
  deriving DecidableEq, Repr

/-- The observable side effects of one `doTest` run, in order:
`assert(ok)` calls, hook invocations, and the final `assert.equal(x, y)`. -/
inductive Event where
  | assertBool (ok : Bool)
  | afterEach (r : TRes)
  | afterError (r : TRes)
  | assertEqual (x y : JSVal)
  deriving DecidableEq, Repr

/-- `suiteHooks` (src/index.ts lines 300-323): builds the result record and
invokes `afterEach` when configured, then `afterError` when configured and
the run did not pass.  Returns the hook invocations as events. -/
def suiteHooks (opts : Opts) (passed : Bool) (v : Validator) (schema : SchemaV)
    (data : JSVal) (t : Test) (valid : JSVal) (errors : Option ErrList) : List Event :=
  let result : TRes :=
    { passed := passed, validator := v, schema := schema, data := data,
      valid := valid, expected := t.valid, expectedError := t.error,
      errors := errors }
  (if opts.hasAfterEach then [Event.afterEach result] else []) ++
    (if opts.hasAfterError && !passed then [Event.afterError result] else [])

/-- The `asyncValid` override (src/index.ts lines 245-246): when
`opts.asyncValid == "data"` and `test.valid === true`, validity is redefined
as `valid === data`. -/
def computedValid (opts : Opts) (t : Test) (data valid0 : JSVal) : JSVal :=
  if opts.asyncValidData && jsEq t.valid (.bool true) then .bool (jsEq valid0 data)
  else valid0

/-- The error-detail assertion condition (src/index.ts lines 257-258):
`if (valid) assert(!errors || errors.length == 0);
 else assert(errors != null && errors?.length > 0);`. -/
def errorsCheck (valid : JSVal) (errors : ErrList) : Bool :=
  if truthy valid then
    match errors with
    | .null => true
    | .arr l => decide (l.length = 0)
  else
    match errors with
    | .null => false
    | .arr l => decide (l.length > 0)

/-- The outcome of one run: the local `passed` flag together with the trace
of side effects.  A failing `assert` throws, so later statements of the
handler contribute no events. -/
structure RunResult where
  passed : Bool
  events : List Event
  deriving DecidableEq, Repr

/-- The `testResults` handler (src/index.ts lines 244-271): applies the
`asyncValid` override, computes `passed = valid === test.valid`, asserts the
error-detail invariant (a failure there throws, so neither the hooks nor the
final equality run), dispatches the hooks, then asserts
`assert.equal(valid, test.valid)`.  The diagnostic `console.log` on mismatch
has no observable effect on classification and is not reified. -/
def testResults (opts : Opts) (v : Validator) (t : Test) (schema : SchemaV)
    (data : JSVal) (valid0 : JSVal) (errors : ErrList) : RunResult :=
  let valid := computedValid opts t data valid0
  let passed := jsEq valid t.valid
  if errorsCheck valid errors then
    { passed := passed,
      events := Event.assertBool true ::
        suiteHooks opts passed v schema data t valid (some errors) ++
          [Event.assertEqual valid t.valid] }
  else
    { passed := passed, events := [Event.assertBool false] }

/-- The `testException` handler (src/index.ts lines 274-298): computes
`passed = err.message == test.error`, dispatches the hooks with the `valid`
and `errors` arguments omitted, then asserts
`assert.equal(err.message, test.error)`. -/
def testException (opts : Opts) (v : Validator) (t : Test) (schema : SchemaV)
    (data : JSVal) (message : JSVal) : RunResult :=
  let passed := looseEq message t.error
  { passed := passed,
    events :=
      suiteHooks opts passed v schema data t JSVal.undef none ++
        [Event.assertEqual message t.error] }

/-- Which handler a run reaches, with which arguments (src/index.ts lines
225-242): in async mode a thenable return is awaited — fulfillment feeds
`testResults(_valid, null)`; a rejection whose error value carries a truthy
`errors` array feeds `testResults(false, err.errors)`, otherwise
`testException(err)`.  In every other case the raw return value and
`validator.errors` feed `testResults` directly. -/
inductive Classified where
  | validity (valid0 : JSVal) (errors : ErrList)
  | exception (message : JSVal)
  deriving DecidableEq, Repr

/-- The protocol decision of `doTest` (src/index.ts lines 225-242). -/
def classify (opts : Opts) (v : Validator) : Classified :=
  match opts.async, v.thenable with
  | true, some (.fulfill x) => .validity x .null
  | true, some (.reject msg errs) =>
    match errs with
    | .arr l => .validity (.bool false) (.arr l)
    | .null => .exception msg
  | _, _ => .validity v.retValue v.errors

/-- Data resolution (src/index.ts lines 216-223): a `dataFile` reference is
loaded through the host module loader (modelled by `load`), otherwise the
literal `data` value is used. -/
def resolveData (load : String → JSVal) (t : Test) : JSVal :=
  match t.dataFile with
  | some f => load f
  | none => t.data

/-- One full `doTest` run (src/index.ts lines 208-272). -/
def doTest (opts : Opts) (v : Validator) (t : Test) (schema : SchemaV)
    (load : String → JSVal) : RunResult :=
  match classify opts v with
  | .validity valid0 errors =>
    testResults opts v t schema (resolveData load t) valid0 errors
  | .exception msg =>
    testException opts v t schema (resolveData load t) msg

theorem testResults_passed (opts : Opts) (v : Validator) (t : Test) (schema : SchemaV)
    (data valid0 : JSVal) (errors : ErrList) :
    (testResults opts v t schema data valid0 errors).passed =
      jsEq (computedValid opts t data valid0) t.valid := by
  cases h : errorsCheck (computedValid opts t data valid0) errors <;>
    simp [testResults, h]

theorem testException_passed (opts : Opts) (v : Validator) (t : Test) (schema : SchemaV)
    (data message : JSVal) :
    (testException opts v t schema data message).passed = looseEq message t.error := rfl

/-! ## Registration model

`jsonSchemaTest` registers a tree of groups (`describe`) and leaf tests
(`it`) with the host framework.  Each registration picks the normal, `skip`
or `only` variant of the primitive through `skipOrOnly`.  The tree below
reifies the registration structure of `jsonSchemaTest`/`addTests`/
`testSchema` (src/index.ts lines 81-206). -/

/-- A `{skip, only}` filter as handed to `skipOrOnly`. -/
structure Filter where
  only : SkipOnly
  skip : SkipOnly
  deriving DecidableEq, Repr

/-- Which variant of a registration primitive is selected. -/
inductive Variant where
  | normal
  | skip
  | only
  deriving DecidableEq, Repr

/-- `skipOrOnly` (src/index.ts lines 347-353):
`filter.only === true ? func.only : filter.skip === true ? func.skip : func`. -/
def skipOrOnly (f : Filter) : Variant :=
  if f.only = SkipOnly.bool true then .only
  else if f.skip = SkipOnly.bool true then .skip
  else .normal

/-- `getFileFilter` (src/index.ts lines 338-345):
`Array.isArray(filter) && filter.indexOf(file.name) >= 0`. -/
def getFileFilter (fileName : String) (filt : SkipOnly) : Bool :=
  match filt with
  | .names l => l.contains fileName
  | _ => false

/-- Host `a || b` on an optional string field: the right operand is used
when the left is absent or falsy (the empty string). -/
def jsOrStr (a : Option String) (b : String) : String :=
  match a with
  | some s => if s = "" then b else s
  | none => b

/-- The schema label `schema.description || schema.id || schema.$ref || "#" + i`
(src/index.ts line 148).  Property access on a non-object yields `undefined`,
so boolean, string or absent schemas fall through to the positional label. -/
def schemaDescr (s : SchemaV) (i : Nat) : String :=
  match s with
  | .sobj d id2 r _ => jsOrStr d (jsOrStr id2 (jsOrStr r ( "#" ++ toString i)))
  | _ => "#" ++ toString i

/-- A test group (the `TestGroup` interface plus the dynamically read
`skip`/`only` properties).  `schema` is `SchemaV.sundef` when absent;
`schemas` is `none` when the property is not an array. -/
structure TestGroup where
  description : String
  schema : SchemaV
  schemas : Option (List SchemaV)
  tests : List Test
  only : SkipOnly
  skip : SkipOnly
  deriving DecidableEq, Repr

/-- A node of the registration tree: a `describe` group or an `it` leaf.
A leaf records which schema and test case its callback will run. -/
inductive RegNode where
  | group (v : Variant) (label : String) (children : List RegNode)
  | leaf (v : Variant) (label : String) (schema : SchemaV) (t : Test)

/-- The variant a node was registered with. -/
def RegNode.variant : RegNode → Variant
  | .group v _ _ => v
  | .leaf v _ _ _ => v

/-- The label a node was registered with. -/
def RegNode.label : RegNode → String
  | .group _ l _ => l
  | .leaf _ l _ _ => l

/-- The children of a group node. -/
def RegNode.children : RegNode → List RegNode
  | .group _ _ cs => cs
  | .leaf _ _ _ _ => []

/-- One leaf registration by `testSchema` (src/index.ts lines 187-205):
`skipOrOnly(test, opts.it)(test.description, ...)`. -/
def testLeaf (schema : SchemaV) (t : Test) : RegNode :=
  .leaf (skipOrOnly ⟨t.only, t.skip⟩) t.description schema t

/-- The leaves registered by one `testSchema` call for a given schema. -/
def testSchemaNodes (schema : SchemaV) (g : TestGroup) : List RegNode :=
  g.tests.map (testLeaf schema)

/-- One test-group registration (src/index.ts lines 142-172):
`skipOrOnly(testSet, opts.describe)(testSet.description, ...)`; when
`Array.isArray(testSet.schemas)` each schema is registered under a nested
nested `describe` group labelled `schema + descr`, otherwise `testSchema` runs directly on
`testSet.schema`. -/
def testSetNode (g : TestGroup) : RegNode :=
  .group (skipOrOnly ⟨g.only, g.skip⟩) g.description
    (match g.schemas with
     | some l =>
       l.enum.map (fun p =>
         RegNode.group Variant.normal ( "schema " ++ schemaDescr p.2 p.1)
           (testSchemaNodes p.2 g))
     | none => testSchemaNodes g.schema g)

/-! ## Suite catalog -/

/-- The options consulted during registration (`description`, `only`,
`skip`, `cwd`, `hideFolder`). -/
structure ROpts where
  description : Option String
  only : SkipOnly
  skip : SkipOnly
  hideFolder : Option String
  cwd : String
  deriving DecidableEq, Repr

/-- A file entry of a suite: an inline `TestSuite` (`{name, test}`) or a
`TestSuitePath` (`{name, path}`) whose groups are loaded lazily. -/
inductive FileSpec where
  | inline (name : String) (test : List TestGroup)
  | bypath (name : String) (path : String)
  deriving DecidableEq, Repr

/-- The display name of a file entry. -/
def FileSpec.name : FileSpec → String
  | .inline n _ => n
  | .bypath n _ => n

/-- The test groups of a file entry; `loadSuite` models the host JSON module
loader used for deferred suites (src/index.ts lines 131-141). -/
def fileGroups (loadSuite : String → List TestGroup) : FileSpec → List TestGroup
  | .inline _ ts => ts
  | .bypath _ p => loadSuite p

/-- Word characters of the folder-capture pattern
`/([\w\-_]+\/)[\w\-_]+\.json/` (src/index.ts line 328):
`\w` is `[A-Za-z0-9_]`, and the classes add `-` and `_`. -/
def isW (c : Char) : Bool := c.isAlphanum || c = '_' || c = '-'

/-- Longest word-character run at the head of the list, with the rest
(the behaviour of a greedy `[\w\-_]+` at a fixed position). -/
def takeW : List Char → List Char × List Char
  | [] => ([], [])
  | c :: cs =>
    if isW c then
      let p := takeW cs
      (c :: p.1, p.2)
    else ([], c :: cs)

/-- Whether `pfx` is a prefix of `l`. -/
def hasPfx : List Char → List Char → Bool
  | [], _ => true
  | _ :: _, [] => false
  | x :: xs, y :: ys => x == y && hasPfx xs ys

/-- The characters of the literal `".json"`. -/
def jsonExt : List Char := [ '.', 'j', 's', 'o', 'n' ]

/-- Attempt of the pattern `([\w\-_]+\/)[\w\-_]+\.json` at a fixed position:
a nonempty word run, a `/`, a second nonempty word run, then the literal
`.json`.  Returns the capture group (the folder with its trailing slash).
Backtracking cannot help here: the word runs are maximal (a shorter run
would be followed by a word character, never by `/` or `.`), so the greedy
match is the only candidate. -/
def matchAt (cs : List Char) : Option (List Char) :=
  let p1 := takeW cs
  if p1.1 = [] then none
  else
    match p1.2 with
    | '/' :: rest2 =>
      let p2 := takeW rest2
      if p2.1 = [] then none
      else if hasPfx jsonExt p2.2 then some (p1.1 ++ [ '/' ])
      else none
    | _ => none

/-- Leftmost match of the folder-capture pattern: the host regex engine
tries each start position from the left (`String.prototype.match` without
the global flag). -/
def findMatch : List Char → Option (List Char)
  | [] => none
  | c :: cs =>
    match matchAt (c :: cs) with
    | some f => some f
    | none => findMatch cs

/-- The part of a path after the last `/` (the basename). -/
def lastComponent (cs : List Char) : List Char :=
  ((cs.reverse.takeWhile (fun c => c ≠ '/')).reverse)

/-- Whether `sfx` is a suffix of `l`. -/
def hasSfx (sfx l : List Char) : Bool := hasPfx sfx.reverse l.reverse

/-- `path.basename(file, ext)`: the last path component, with `ext`
stripped when it is a proper suffix (the host keeps a basename that equals
the extension unchanged). -/
def basenameExt (ext cs : List Char) : List Char :=
  let base := lastComponent cs
  if base = ext then base
  else if hasSfx ext base then base.take (base.length - ext.length)
  else base

/-- The guard `opts.hideFolder && folder == opts.hideFolder`
(src/index.ts line 330): the option must be present and truthy (nonempty)
and equal to the captured folder. -/
def hideFolderApplies (hf : Option String) (folder : String) : Bool :=
  match hf with
  | some h => decide (h ≠ "" ∧ folder = h)
  | none => false

/-- The display name derived by `getTestFiles` for one matched relative path
(src/index.ts lines 327-334): the captured `folder/` prefix (empty when the
pattern does not match, or when it equals `opts.hideFolder`) plus the
basename without the `.json` extension. -/
def deriveName (hf : Option String) (file : String) : String :=
  let folder :=
    match findMatch file.toList with
    | some f => String.mk f
    | none => ""
  let folder := if hideFolderApplies hf folder then "" else folder
  folder ++ String.mk (basenameExt jsonExt file.toList)

/-- A resolved `TestSuitePath` produced by `getTestFiles`. -/
structure TestFileRef where
  path : String
  name : String
  deriving DecidableEq, Repr

/-- `getTestFiles` (src/index.ts lines 325-336).  `glob.sync` is an external
collaborator; `files` is the list of relative paths it matched.  `path.join`
is modelled as `cwd ++ "/" ++ file`; its separator normalization is not
claim-relevant. -/
def getTestFiles (opts : ROpts) (files : List String) : List TestFileRef :=
  files.map (fun file =>
    { path := opts.cwd ++ "/" ++ file, name := deriveName opts.hideFolder file })

/-- A suite specification: an inline list of suite objects, or a glob
pattern, represented by the list of relative paths the (external) matcher
produced for it. -/
inductive SuitesSpec where
  | inline (files : List FileSpec)
  | pattern (matched : List String)
  deriving DecidableEq, Repr

/-- Resolution of a suite specification into file entries (src/index.ts
lines 118-120). -/
def resolveFiles (opts : ROpts) : SuitesSpec → List FileSpec
  | .inline l => l
  | .pattern files => (getTestFiles opts files).map (fun r => FileSpec.bypath r.name r.path)

/-- One file registration (src/index.ts lines 122-128): the per-item filter
is the boolean pair computed by `getFileFilter`, resolved through
`skipOrOnly`. -/
def fileNode (opts : ROpts) (loadSuite : String → List TestGroup) (f : FileSpec) : RegNode :=
  .group
    (skipOrOnly
      ⟨SkipOnly.bool (getFileFilter f.name opts.only),
       SkipOnly.bool (getFileFilter f.name opts.skip)⟩)
    f.name ((fileGroups loadSuite f).map testSetNode)

/-- One suite-group registration (src/index.ts line 117): a plain
`opts.describe(suiteName, ...)`, not gated by any filter. -/
def suiteGroupNode (opts : ROpts) (loadSuite : String → List TestGroup)
    (suiteName : String) (spec : SuitesSpec) : RegNode :=
  .group .normal suiteName ((resolveFiles opts spec).map (fileNode opts loadSuite))

/-- The whole registration tree of `jsonSchemaTest` (src/index.ts lines
81-107): the top-level group is gated by `skipOrOnly(opts, opts.describe)`
and labelled `opts.description || "JSON schema tests"`. -/
def jsonSchemaTestTree (opts : ROpts) (loadSuite : String → List TestGroup)
    (suites : List (String × SuitesSpec)) : RegNode :=
  .group (skipOrOnly ⟨opts.only, opts.skip⟩)
    (jsOrStr opts.description "JSON schema tests")
    (suites.map (fun p => suiteGroupNode opts loadSuite p.1 p.2))

/-! ## Scheduling of a validator list in non-async mode

`testSchema` (src/index.ts lines 189-204) drives a validator list in
non-async mode with `for (const validator of validators) { doTest(...) }`.
`doTest` is an `async function`: its body runs synchronously up to its first
`await` and the remainder runs later, from the host microtask queue, because
the loop does not `await` the returned promise.  A test case with a
`dataFile` suspends at `await import(dataFile)` (line 220) — an `await`
always yields, even on an already-settled promise — while a test case with
inline data runs the whole body synchronously.  The trace below reifies the
begin and end of each validator run under these host semantics, with the
queued continuations resumed in first-in-first-out order after the loop. -/

/-- Begin/end of the `doTest` run of validator `i`. -/
inductive LoopEv where
  | beginRun (i : Nat)
  | endRun (i : Nat)
  deriving DecidableEq, Repr

/-- The event order of the non-async validator-list loop over `n`
validators: with a `dataFile`, every run begins (and suspends) before any
run ends; with inline data each run completes before the next begins. -/
def syncLoopTrace (n : Nat) (hasDataFile : Bool) : List LoopEv :=
  if hasDataFile then
    (List.range n).map LoopEv.beginRun ++ (List.range n).map LoopEv.endRun
  else
    (List.range n).flatMap (fun i => [LoopEv.beginRun i, LoopEv.endRun i])

/-- Position of the first occurrence of an event in a trace. -/
def evIdx (tr : List LoopEv) (e : LoopEv) : Nat := tr.findIdx (fun x => x == e)

/-! ## Helper lemmas and fixtures -/

theorem testResults_events_of_check_false (opts : Opts) (v : Validator) (t : Test)
    (schema : SchemaV) (data valid0 : JSVal) (errors : ErrList)
    (h : errorsCheck (computedValid opts t data valid0) errors = false) :
    (testResults opts v t schema data valid0 errors).events = [Event.assertBool false] := by
  simp [testResults, h]

theorem testResults_events_of_check_true (opts : Opts) (v : Validator) (t : Test)
    (schema : SchemaV) (data valid0 : JSVal) (errors : ErrList)
    (h : errorsCheck (computedValid opts t data valid0) errors = true) :
    (testResults opts v t schema data valid0 errors).events =
      Event.assertBool true ::
        suiteHooks opts (jsEq (computedValid opts t data valid0) t.valid) v schema data t
          (computedValid opts t data valid0) (some errors) ++
        [Event.assertEqual (computedValid opts t data valid0) t.valid] := by
  simp [testResults, h]

theorem testException_events (opts : Opts) (v : Validator) (t : Test) (schema : SchemaV)
    (data message : JSVal) :
    (testException opts v t schema data message).events =
      suiteHooks opts (looseEq message t.error) v schema data t JSVal.undef none ++
        [Event.assertEqual message t.error] := rfl

theorem suiteHooks_no_assertEqual (opts : Opts) (passed : Bool) (v : Validator)
    (schema : SchemaV) (data : JSVal) (t : Test) (valid : JSVal) (errors : Option ErrList)
    (x y : JSVal) :
    Event.assertEqual x y ∉ suiteHooks opts passed v schema data t valid errors := by
  unfold suiteHooks
  cases h1 : opts.hasAfterEach <;> cases h2 : opts.hasAfterError && !passed <;>
    simp [h1, h2]

/-- A loader for test cases with inline data: never consulted by them. -/
def jsLoad : String → JSVal := fun _ => JSVal.undef

/-- Fixture: non-async run with both hooks configured. -/
def opts0 : Opts :=
  { async := false, asyncValidData := false, hasAfterEach := true, hasAfterError := true }

/-- Fixture: a synchronous validator that returned `false` with one error
detail on its `errors` attribute. -/
def v0 : Validator :=
  { retValue := JSVal.bool false, thenable := none, errors := ErrList.arr [ JSVal.obj 0 ] }

/-- Fixture: a test case expecting `valid === false` with inline data. -/
def t0 : Test :=
  { description := "case", data := JSVal.num 1, dataFile := none,
    valid := JSVal.bool false, error := JSVal.undef,
    only := SkipOnly.undef, skip := SkipOnly.undef }

/-- Fixture: a test group with no schemas list and no test cases. -/
def emptyGroup : TestGroup :=
  { description := "group", schema := SchemaV.sundef, schemas := none,
    tests := [], only := SkipOnly.undef, skip := SkipOnly.undef }

/-- Fixture: a test case `{ valid: true, data: D }` where `D` is the object
with reference number `n`. -/
def refTest (n : Nat) : Test :=
  { description := "case", data := JSVal.obj n, dataFile := none,
    valid := JSVal.bool true, error := JSVal.undef,
    only := SkipOnly.undef, skip := SkipOnly.undef }

/-- Fixture: a validator whose `validate` returns a thenable fulfilling with
`x`.  The raw return value is the promise object itself; its identity is
never compared in the async path. -/
def fulfillValidator (x : JSVal) : Validator :=
  { retValue := JSVal.obj 1000, thenable := some (Thenable.fulfill x),
    errors := ErrList.null }

/-! ## Claims -/

/-- C1: for every executed (validator, test case) pair, the `passed` flag is
true iff, in exception mode, the raised error message equals the expected
error text of the test case, or, in validity mode, the computed validity
(after any `asyncValid` override) strict-equals the expected `valid`
value. -/
theorem c1_passed_iff (opts : Opts) (v : Validator) (t : Test) (schema : SchemaV)
    (load : String → JSVal) :
    (doTest opts v t schema load).passed = true ↔
      ((∃ msg, classify opts v = .exception msg ∧ looseEq msg t.error = true) ∨
       (∃ v0 e, classify opts v = .validity v0 e ∧
         jsEq (computedValid opts t (resolveData load t) v0) t.valid = true)) := by
  unfold doTest
  cases h : classify opts v with
  | validity v0 e =>
    rw [testResults_passed]
    constructor
    · intro hp
      exact Or.inr ⟨v0, e, rfl, hp⟩
    · rintro (⟨msg, hc, _⟩ | ⟨v0h, eh, hc, hp⟩)
      · cases hc
      · injection hc with h1 h2
        subst h1
        exact hp
  | exception msg =>
    rw [testException_passed]
    constructor
    · intro hp
      exact Or.inl ⟨msg, rfl, hp⟩
    · rintro (⟨msg2, hc, hp⟩ | ⟨v0h, eh, hc, hp⟩)
      · injection hc with h1
        subst h1
        exact hp
      · cases hc

/-- C2: every finalized validity-mode outcome asserts the error-detail
invariant before the final equality check — a failing check throws at once,
a passing one is followed by the hooks and only then the final equality.
The check demands an empty-or-absent list for truthy validity and a
non-null, non-empty list for falsy validity; in the asynchronous-success
protocol the list is the literal `null`, so the non-empty requirement is
satisfiable in the synchronous protocol only (which reads it from
`validator.errors`). -/
theorem c2_error_detail_assertion (opts : Opts) (v : Validator) (t : Test)
    (schema : SchemaV) (load : String → JSVal) (valid0 : JSVal) (errors : ErrList)
    (h : classify opts v = .validity valid0 errors) :
    (errorsCheck (computedValid opts t (resolveData load t) valid0) errors = false →
      (doTest opts v t schema load).events = [Event.assertBool false]) ∧
    (errorsCheck (computedValid opts t (resolveData load t) valid0) errors = true →
      ∃ hooks, (doTest opts v t schema load).events =
        Event.assertBool true :: hooks ++
          [Event.assertEqual (computedValid opts t (resolveData load t) valid0) t.valid]) ∧
    (∀ valid : JSVal, truthy valid = true →
      (errorsCheck valid errors = true ↔ errors = .null ∨ errors = .arr [])) ∧
    (∀ valid : JSVal, truthy valid = false →
      (errorsCheck valid errors = true ↔ ∃ e l, errors = .arr (e :: l))) ∧
    (∀ x, opts.async = true → v.thenable = some (.fulfill x) →
      errors = .null ∧
        ∀ valid : JSVal, truthy valid = false → errorsCheck valid errors = false) ∧
    ((opts.async = false ∨ v.thenable = none) → errors = v.errors) := by
  refine ⟨?_, ?_, ?_, ?_, ?_, ?_⟩
  · intro hc
    unfold doTest
    rw [h]
    exact testResults_events_of_check_false opts v t schema _ valid0 errors hc
  · intro hc
    unfold doTest
    rw [h]
    exact ⟨_, testResults_events_of_check_true opts v t schema _ valid0 errors hc⟩
  · intro valid hv
    unfold errorsCheck
    simp only [hv, if_true]
    cases errors with
    | null => simp
    | arr l => cases l <;> simp
  · intro valid hv
    unfold errorsCheck
    simp only [hv, Bool.false_eq_true, if_false]
    cases errors with
    | null => simp
    | arr l =>
      cases l with
      | nil => simp
      | cons e l => simp
  · intro x hA hT
    rw [classify] at h
    rw [hA, hT] at h
    simp only [Classified.validity.injEq] at h
    refine ⟨h.2.symm, ?_⟩
    intro valid hv
    rw [← h.2]
    unfold errorsCheck
    simp [hv]
  · intro hOr
    rcases hOr with hA | hT
    · rw [classify, hA] at h
      cases ht : v.thenable with
      | none =>
        rw [ht] at h
        simp only [Classified.validity.injEq] at h
        exact h.2.symm
      | some th =>
        rw [ht] at h
        cases th <;> simp_all [Classified.validity.injEq]
    · rw [classify, hT] at h
      cases hA : opts.async <;> rw [hA] at h <;>
        simp only [Classified.validity.injEq] at h <;> exact h.2.symm

/-- C2 witness: the synchronous fixture (`opts0`, `v0`, `t0`) reaches the
validity handler with the one-element error list of the validator; the check
passes and the final equality follows the hooks. -/
theorem c2_error_detail_assertion_witness :
    (errorsCheck (computedValid opts0 t0 (resolveData jsLoad t0) (JSVal.bool false))
        (ErrList.arr [ JSVal.obj 0 ]) = true →
      ∃ hooks, (doTest opts0 v0 t0 SchemaV.sundef jsLoad).events =
        Event.assertBool true :: hooks ++
          [Event.assertEqual
            (computedValid opts0 t0 (resolveData jsLoad t0) (JSVal.bool false)) t0.valid]) ∧
    ((opts0.async = false ∨ v0.thenable = none) →
      ErrList.arr [ JSVal.obj 0 ] = v0.errors) :=
  ⟨(c2_error_detail_assertion opts0 v0 t0 SchemaV.sundef jsLoad
      (JSVal.bool false) (ErrList.arr [ JSVal.obj 0 ]) (by decide)).2.1,
   (c2_error_detail_assertion opts0 v0 t0 SchemaV.sundef jsLoad
      (JSVal.bool false) (ErrList.arr [ JSVal.obj 0 ]) (by decide)).2.2.2.2.2⟩

/-- C3: in async mode, a rejecting thenable is classified by whether the
rejection value carries its own `errors` list: with a list, the run is a
validity-mode failure (validity `false`, those details); without one it is
an exception-mode case whose only equality assertion compares the
rejection message against the expected `error` text — no validity
comparison happens for that case. -/
theorem c3_async_rejection (opts : Opts) (v : Validator) (t : Test) (schema : SchemaV)
    (load : String → JSVal) (msg : JSVal) (errs : ErrList)
    (ha : opts.async = true) (hv : v.thenable = some (.reject msg errs)) :
    (∀ l, errs = .arr l →
      classify opts v = .validity (JSVal.bool false) (.arr l) ∧
      doTest opts v t schema load =
        testResults opts v t schema (resolveData load t) (JSVal.bool false) (.arr l)) ∧
    (errs = .null →
      classify opts v = .exception msg ∧
      doTest opts v t schema load = testException opts v t schema (resolveData load t) msg ∧
      (doTest opts v t schema load).passed = looseEq msg t.error ∧
      (∀ x y, Event.assertEqual x y ∈ (doTest opts v t schema load).events →
        x = msg ∧ y = t.error)) := by
  constructor
  · intro l hl
    subst hl
    have hc : classify opts v = .validity (JSVal.bool false) (.arr l) := by
      rw [classify, ha, hv]
    refine ⟨hc, ?_⟩
    rw [doTest, hc]
  · intro hn
    subst hn
    have hc : classify opts v = .exception msg := by
      rw [classify, ha, hv]
    have hd : doTest opts v t schema load =
        testException opts v t schema (resolveData load t) msg := by
      rw [doTest, hc]
    refine ⟨hc, hd, by rw [hd, testException_passed], ?_⟩
    intro x y hm
    rw [hd, testException_events] at hm
    rcases List.mem_append.mp hm with hin | hin
    · exact absurd hin
        (suiteHooks_no_assertEqual opts (looseEq msg t.error) v schema
          (resolveData load t) t JSVal.undef none x y)
    · have heq := List.mem_singleton.mp hin
      injection heq with h1 h2
      exact ⟨h1, h2⟩

/-- Fixture: async run with no hooks configured. -/
def optsA : Opts :=
  { async := true, asyncValidData := false, hasAfterEach := false, hasAfterError := false }

/-- Fixture: a validator whose thenable rejects with message `"bad schema"`
and no `errors` list. -/
def vR : Validator :=
  { retValue := JSVal.obj 1000,
    thenable := some (Thenable.reject (JSVal.str "bad schema") ErrList.null),
    errors := ErrList.null }

/-- Fixture: a test case expecting the error text `"bad schema"`. -/
def tE : Test :=
  { description := "case", data := JSVal.num 1, dataFile := none,
    valid := JSVal.undef, error := JSVal.str "bad schema",
    only := SkipOnly.undef, skip := SkipOnly.undef }

/-- C3 witness: a rejection carrying no `errors` list, with the message
matching the expected error text. -/
theorem c3_async_rejection_witness :
    classify optsA vR = .exception (JSVal.str "bad schema") ∧
      doTest optsA vR tE SchemaV.sundef jsLoad =
        testException optsA vR tE SchemaV.sundef (resolveData jsLoad tE) (JSVal.str "bad schema") ∧
      (doTest optsA vR tE SchemaV.sundef jsLoad).passed =
        looseEq (JSVal.str "bad schema") tE.error ∧
      (∀ x y, Event.assertEqual x y ∈ (doTest optsA vR tE SchemaV.sundef jsLoad).events →
        x = JSVal.str "bad schema" ∧ y = tE.error) :=
  (c3_async_rejection _ _ _ SchemaV.sundef jsLoad (JSVal.str "bad schema") ErrList.null
    (by decide) (by decide)).2 rfl

/-- C4: the synchronous protocol feeds `testResults` the error-detail list
read from `validator.errors` right after the call, while the
asynchronous-success protocol feeds the fulfilled value as the validity flag
and the literal `null` as the list, never reading `validator.errors`; the
two classifications differ in the list whenever the `errors`
attribute is non-empty. -/
theorem c4_errors_source_asymmetry (opts : Opts) (v : Validator) (x : JSVal) :
    (opts.async = true → v.thenable = some (.fulfill x) →
      classify opts v = .validity x ErrList.null) ∧
    (opts.async = false → classify opts v = .validity v.retValue v.errors) ∧
    (v.thenable = none → classify opts v = .validity v.retValue v.errors) ∧
    (∀ e l, v.errors = ErrList.arr (e :: l) → ErrList.null ≠ v.errors) := by
  refine ⟨?_, ?_, ?_, ?_⟩
  · intro hA hT
    rw [classify, hA, hT]
  · intro hA
    rw [classify, hA]
  · intro hT
    rw [classify, hT]
    cases opts.async <;> rfl
  · intro e l he
    rw [he]
    exact fun hc => ErrList.noConfusion hc

/-- C4 witness: the same validator (returning a thenable that fulfills with
`true` while holding a non-empty `errors` attribute) is classified with
`null` details in async mode and with its own `errors` list otherwise. -/
theorem c4_errors_source_asymmetry_witness :
    (optsA.async = true →
      (Validator.mk (JSVal.obj 1000) (some (Thenable.fulfill (JSVal.bool true)))
          (ErrList.arr [ JSVal.obj 7 ])).thenable =
        some (Thenable.fulfill (JSVal.bool true)) →
      classify optsA
          (Validator.mk (JSVal.obj 1000) (some (Thenable.fulfill (JSVal.bool true)))
            (ErrList.arr [ JSVal.obj 7 ])) =
        .validity (JSVal.bool true) ErrList.null) ∧
    (opts0.async = false →
      classify opts0
          (Validator.mk (JSVal.obj 1000) (some (Thenable.fulfill (JSVal.bool true)))
            (ErrList.arr [ JSVal.obj 7 ])) =
        .validity (JSVal.obj 1000) (ErrList.arr [ JSVal.obj 7 ])) ∧
    ErrList.null ≠ ErrList.arr [ JSVal.obj 7 ] :=
  ⟨(c4_errors_source_asymmetry optsA
      (Validator.mk (JSVal.obj 1000) (some (Thenable.fulfill (JSVal.bool true)))
        (ErrList.arr [ JSVal.obj 7 ])) (JSVal.bool true)).1,
   (c4_errors_source_asymmetry opts0
      (Validator.mk (JSVal.obj 1000) (some (Thenable.fulfill (JSVal.bool true)))
        (ErrList.arr [ JSVal.obj 7 ])) (JSVal.bool true)).2.1,
   (c4_errors_source_asymmetry opts0
      (Validator.mk (JSVal.obj 1000) (some (Thenable.fulfill (JSVal.bool true)))
        (ErrList.arr [ JSVal.obj 7 ])) (JSVal.bool true)).2.2.2
     (JSVal.obj 7) [] rfl⟩

/-- C5: with `asyncValid == "data"`, a case expecting `valid === true` has
its validity redefined to the strict equality of the raw result with the
data value — a validator reflecting back the exact data reference passes,
one returning a structurally-equal but distinct object fails — while cases
expecting `false` or an error use the raw result unchanged. -/
theorem c5_asyncValid_data (opts : Opts) (t : Test) (dataV valid0 : JSVal)
    (hA : opts.asyncValidData = true) :
    (t.valid = JSVal.bool true →
      computedValid opts t dataV valid0 = JSVal.bool (jsEq valid0 dataV)) ∧
    (t.valid ≠ JSVal.bool true → computedValid opts t dataV valid0 = valid0) ∧
    (∀ n, opts.async = true →
      (doTest opts (fulfillValidator (JSVal.obj n)) (refTest n)
          SchemaV.sundef jsLoad).passed = true) ∧
    (∀ n m, n ≠ m → opts.async = true →
      (doTest opts (fulfillValidator (JSVal.obj m)) (refTest n)
          SchemaV.sundef jsLoad).passed = false) := by
  refine ⟨?_, ?_, ?_, ?_⟩
  · intro hv
    simp [computedValid, hA, jsEq, hv]
  · intro hv
    simp [computedValid, jsEq, hv]
  · intro n hAsync
    have hc : classify opts (fulfillValidator (JSVal.obj n)) =
        .validity (JSVal.obj n) ErrList.null := by
      rw [classify, hAsync]
      rfl
    rw [doTest, hc, testResults_passed]
    simp [computedValid, hA, jsEq, refTest, resolveData, jsLoad]
  · intro n m hnm hAsync
    have hc : classify opts (fulfillValidator (JSVal.obj m)) =
        .validity (JSVal.obj m) ErrList.null := by
      rw [classify, hAsync]
      rfl
    rw [doTest, hc, testResults_passed]
    simp [computedValid, hA, jsEq, refTest, resolveData, jsLoad, hnm]
    omega

/-- C5 witness: objects `0` and `1` as data/result references. -/
theorem c5_asyncValid_data_witness :
    (doTest (Opts.mk true true false false) (fulfillValidator (JSVal.obj 0)) (refTest 0)
        SchemaV.sundef jsLoad).passed = true ∧
    (doTest (Opts.mk true true false false) (fulfillValidator (JSVal.obj 1)) (refTest 0)
        SchemaV.sundef jsLoad).passed = false :=
  ⟨(c5_asyncValid_data (Opts.mk true true false false) (refTest 0) JSVal.undef JSVal.undef
      rfl).2.2.1 0 rfl,
   (c5_asyncValid_data (Opts.mk true true false false) (refTest 0) JSVal.undef JSVal.undef
      rfl).2.2.2 0 1 (by decide) rfl⟩

/-- C6: the filter resolver returns the only-variant when `filter.only` is
exactly the boolean `true`, else the skip-variant when `filter.skip` is
exactly `true`, else the primitive unchanged — `only` wins when both are
`true` — and this same resolver gates every registration level: the
top-level group, each file item, each test group and each individual
test. -/
theorem c6_skipOrOnly_gating (f : Filter) (opts : ROpts)
    (loadSuite : String → List TestGroup) (suites : List (String × SuitesSpec))
    (g : TestGroup) (t : Test) (s : SchemaV) (fs : FileSpec) :
    (f.only = SkipOnly.bool true → skipOrOnly f = Variant.only) ∧
    (f.only ≠ SkipOnly.bool true → f.skip = SkipOnly.bool true →
      skipOrOnly f = Variant.skip) ∧
    (f.only ≠ SkipOnly.bool true → f.skip ≠ SkipOnly.bool true →
      skipOrOnly f = Variant.normal) ∧
    (jsonSchemaTestTree opts loadSuite suites).variant =
      skipOrOnly ⟨opts.only, opts.skip⟩ ∧
    (fileNode opts loadSuite fs).variant =
      skipOrOnly
        ⟨SkipOnly.bool (getFileFilter fs.name opts.only),
         SkipOnly.bool (getFileFilter fs.name opts.skip)⟩ ∧
    (testSetNode g).variant = skipOrOnly ⟨g.only, g.skip⟩ ∧
    (testLeaf s t).variant = skipOrOnly ⟨t.only, t.skip⟩ := by
  refine ⟨?_, ?_, ?_, rfl, rfl, rfl, rfl⟩
  · intro h
    simp [skipOrOnly, h]
  · intro h1 h2
    simp [skipOrOnly, h1, h2]
  · intro h1 h2
    simp [skipOrOnly, h1, h2]

/-- C6 witness: `only` wins over `skip` when both are `true`; a name list
is not the boolean `true`; and the leaf level is gated by the resolver. -/
theorem c6_skipOrOnly_gating_witness :
    skipOrOnly ⟨SkipOnly.bool true, SkipOnly.bool true⟩ = Variant.only ∧
    skipOrOnly ⟨SkipOnly.bool false, SkipOnly.bool true⟩ = Variant.skip ∧
    skipOrOnly ⟨SkipOnly.names [ "a" ], SkipOnly.undef⟩ = Variant.normal ∧
    (testLeaf SchemaV.sundef t0).variant = skipOrOnly ⟨t0.only, t0.skip⟩ :=
  ⟨(c6_skipOrOnly_gating ⟨SkipOnly.bool true, SkipOnly.bool true⟩
      ⟨none, SkipOnly.undef, SkipOnly.undef, none, "."⟩ (fun _ => []) [] emptyGroup t0
      SchemaV.sundef (FileSpec.inline "f" [])).1 rfl,
   (c6_skipOrOnly_gating ⟨SkipOnly.bool false, SkipOnly.bool true⟩
      ⟨none, SkipOnly.undef, SkipOnly.undef, none, "."⟩ (fun _ => []) [] emptyGroup t0
      SchemaV.sundef (FileSpec.inline "f" [])).2.1 (by decide) rfl,
   (c6_skipOrOnly_gating ⟨SkipOnly.names [ "a" ], SkipOnly.undef⟩
      ⟨none, SkipOnly.undef, SkipOnly.undef, none, "."⟩ (fun _ => []) [] emptyGroup t0
      SchemaV.sundef (FileSpec.inline "f" [])).2.2.1 (by decide) (by decide),
   (c6_skipOrOnly_gating ⟨SkipOnly.undef, SkipOnly.undef⟩
      ⟨none, SkipOnly.undef, SkipOnly.undef, none, "."⟩ (fun _ => []) [] emptyGroup t0
      SchemaV.sundef (FileSpec.inline "f" [])).2.2.2.2.2.2⟩

/-- Fixture: a test group whose `schemas` property is an empty array while
`schema` and one test case are present. -/
def emptySchemasGroup : TestGroup :=
  { description := "group", schema := SchemaV.sbool true, schemas := some [],
    tests := [ t0 ], only := SkipOnly.undef, skip := SkipOnly.undef }

/-- C7 counterexample: the source branches on `Array.isArray(testSet.schemas)`
(src/index.ts line 144), not on non-emptiness.  For a group whose `schemas`
is the empty array the claim predicts the single-entry fallback — the test
leaves registered directly for `group.schema` — but the code registers
nothing at all under the group. -/
theorem c7_counterexample :
    (testSetNode emptySchemasGroup).children ≠
      testSchemaNodes emptySchemasGroup.schema emptySchemasGroup ∧
    (testSetNode emptySchemasGroup).children = [] := by
  constructor
  · intro h
    have h2 : (List.length (α := RegNode) [] : Nat) = 1 := by
      conv_lhs => rw [show ([] : List RegNode) = (testSetNode emptySchemasGroup).children from rfl, h]
      rfl
    cases h2
  · rfl

/-- C7 (amended): when `group.schemas` is an array — possibly empty — the
expander yields one nested describe group labelled `schema + label` per element,
the label being the schema description, else its `id`, else its `$ref`,
else the positional `"#" + index`; only when `schemas` is not an array does
it yield exactly one entry, running the tests directly on `group.schema`
with no nested grouping. -/
theorem c7_schema_expansion (g : TestGroup) :
    (∀ l, g.schemas = some l →
      (testSetNode g).children =
        l.enum.map (fun p =>
          RegNode.group Variant.normal ( "schema " ++ schemaDescr p.2 p.1)
            (testSchemaNodes p.2 g))) ∧
    (g.schemas = none →
      (testSetNode g).children = testSchemaNodes g.schema g) ∧
    (∀ (d : String) (i2 r : Option String) (oid i : Nat), d ≠ "" →
      schemaDescr (SchemaV.sobj (some d) i2 r oid) i = d) ∧
    (∀ (s2 : String) (r : Option String) (oid i : Nat), s2 ≠ "" →
      schemaDescr (SchemaV.sobj none (some s2) r oid) i = s2) ∧
    (∀ (rs : String) (oid i : Nat), rs ≠ "" →
      schemaDescr (SchemaV.sobj none none (some rs) oid) i = rs) ∧
    (∀ (oid i : Nat),
      schemaDescr (SchemaV.sobj none none none oid) i = "#" ++ toString i) ∧
    (∀ (b : Bool) (i : Nat), schemaDescr (SchemaV.sbool b) i = "#" ++ toString i) ∧
    (∀ (s : String) (i : Nat), schemaDescr (SchemaV.sstr s) i = "#" ++ toString i) := by
  refine ⟨?_, ?_, ?_, ?_, ?_, fun _ _ => rfl, fun _ _ => rfl, fun _ _ => rfl⟩
  · intro l hl
    simp [testSetNode, hl, RegNode.children]
  · intro hl
    simp [testSetNode, hl, RegNode.children]
  · intro d i2 r oid i hd
    simp [schemaDescr, jsOrStr, hd]
  · intro s2 r oid i hs
    simp [schemaDescr, jsOrStr, hs]
  · intro rs oid i hr
    simp [schemaDescr, jsOrStr, hr]

/-- C7 witness: a two-schema group expands to two labelled nested groups,
the first labelled by its description, the second positionally. -/
theorem c7_schema_expansion_witness :
    (testSetNode
        { description := "group", schema := SchemaV.sundef,
          schemas := some
            [ SchemaV.sobj (some "named") none none 0, SchemaV.sobj none none none 1 ],
          tests := [ t0 ], only := SkipOnly.undef, skip := SkipOnly.undef }).children =
      [ RegNode.group Variant.normal ( "schema " ++ schemaDescr (SchemaV.sobj (some "named") none none 0) 0)
          (testSchemaNodes (SchemaV.sobj (some "named") none none 0)
            { description := "group", schema := SchemaV.sundef,
              schemas := some
                [ SchemaV.sobj (some "named") none none 0, SchemaV.sobj none none none 1 ],
              tests := [ t0 ], only := SkipOnly.undef, skip := SkipOnly.undef }),
        RegNode.group Variant.normal ( "schema " ++ schemaDescr (SchemaV.sobj none none none 1) 1)
          (testSchemaNodes (SchemaV.sobj none none none 1)
            { description := "group", schema := SchemaV.sundef,
              schemas := some
                [ SchemaV.sobj (some "named") none none 0, SchemaV.sobj none none none 1 ],
              tests := [ t0 ], only := SkipOnly.undef, skip := SkipOnly.undef }) ] ∧
    schemaDescr (SchemaV.sobj (some "named") none none 0) 0 = "named" :=
  ⟨(c7_schema_expansion
      { description := "group", schema := SchemaV.sundef,
        schemas := some
          [ SchemaV.sobj (some "named") none none 0, SchemaV.sobj none none none 1 ],
        tests := [ t0 ], only := SkipOnly.undef, skip := SkipOnly.undef }).1
      [ SchemaV.sobj (some "named") none none 0, SchemaV.sobj none none none 1 ] rfl,
   (c7_schema_expansion emptyGroup).2.2.1 "named" none none 0 0 (by decide)⟩

/-- C9 (evaluation at the failing input): with two validators in non-async
mode and a test case carrying a `dataFile`, the run of the second validator
begins before the first one completes — the loop at src/index.ts lines
196-200 does not await the promise returned by the async `doTest`, which
suspends at `await import(dataFile)` — whereas with inline data each run
completes before the next begins. -/
theorem c9_missing_await_interleaves :
    syncLoopTrace 2 true =
      [ LoopEv.beginRun 0, LoopEv.beginRun 1, LoopEv.endRun 0, LoopEv.endRun 1 ] ∧
    evIdx (syncLoopTrace 2 true) (LoopEv.beginRun 1) <
      evIdx (syncLoopTrace 2 true) (LoopEv.endRun 0) ∧
    evIdx (syncLoopTrace 2 false) (LoopEv.endRun 0) <
      evIdx (syncLoopTrace 2 false) (LoopEv.beginRun 1) := by decide

theorem mem_suiteHooks_afterEach (opts : Opts) (passed : Bool) (v : Validator)
    (schema : SchemaV) (data : JSVal) (t : Test) (valid : JSVal) (errors : Option ErrList)
    (r : TRes) (h : Event.afterEach r ∈ suiteHooks opts passed v schema data t valid errors) :
    r.valid = valid ∧ r.errors = errors := by
  cases h1 : opts.hasAfterEach <;> cases h2 : opts.hasAfterError && !passed <;>
    simp [suiteHooks, h1, h2] at h <;> subst h <;> exact ⟨rfl, rfl⟩

theorem mem_suiteHooks_afterError (opts : Opts) (passed : Bool) (v : Validator)
    (schema : SchemaV) (data : JSVal) (t : Test) (valid : JSVal) (errors : Option ErrList)
    (r : TRes) (h : Event.afterError r ∈ suiteHooks opts passed v schema data t valid errors) :
    r.valid = valid ∧ r.errors = errors := by
  cases h1 : opts.hasAfterEach <;> cases h2 : opts.hasAfterError && !passed <;>
    simp [suiteHooks, h1, h2] at h <;> subst h <;> exact ⟨rfl, rfl⟩

/-- C10: hooks are dispatched after the error-detail assertion and before
the final equality assertion.  A failing error-detail assertion yields no
hook event at all; a mere actual-vs-expected mismatch fires `afterEach`
then `afterError` before the final (failing) equality event; in exception
mode the hooks likewise precede the message-equality assertion and carry a
result record whose validity and error-detail fields are left undefined. -/
theorem c10_hook_ordering (opts : Opts) (v : Validator) (t : Test) (schema : SchemaV)
    (load : String → JSVal) :
    (∀ v0 e, classify opts v = .validity v0 e →
      (errorsCheck (computedValid opts t (resolveData load t) v0) e = false →
        (doTest opts v t schema load).events = [Event.assertBool false] ∧
        (∀ r, Event.afterEach r ∉ (doTest opts v t schema load).events) ∧
        (∀ r, Event.afterError r ∉ (doTest opts v t schema load).events)) ∧
      (errorsCheck (computedValid opts t (resolveData load t) v0) e = true →
        opts.hasAfterEach = true → opts.hasAfterError = true →
        jsEq (computedValid opts t (resolveData load t) v0) t.valid = false →
        (doTest opts v t schema load).events =
          [Event.assertBool true,
           Event.afterEach
             (TRes.mk false v schema (resolveData load t)
               (computedValid opts t (resolveData load t) v0) t.valid t.error (some e)),
           Event.afterError
             (TRes.mk false v schema (resolveData load t)
               (computedValid opts t (resolveData load t) v0) t.valid t.error (some e)),
           Event.assertEqual (computedValid opts t (resolveData load t) v0) t.valid])) ∧
    (∀ msg, classify opts v = .exception msg →
      (doTest opts v t schema load).events =
        suiteHooks opts (looseEq msg t.error) v schema (resolveData load t) t
          JSVal.undef none ++ [Event.assertEqual msg t.error] ∧
      (∀ r, (Event.afterEach r ∈ (doTest opts v t schema load).events ∨
              Event.afterError r ∈ (doTest opts v t schema load).events) →
        r.valid = JSVal.undef ∧ r.errors = none)) := by
  constructor
  · intro v0 e h
    have hd : doTest opts v t schema load =
        testResults opts v t schema (resolveData load t) v0 e := by
      rw [doTest, h]
    constructor
    · intro hc
      rw [hd, testResults_events_of_check_false opts v t schema _ v0 e hc]
      refine ⟨rfl, ?_, ?_⟩ <;> intro r <;> simp
    · intro hc hEach hErr hp
      rw [hd, testResults_events_of_check_true opts v t schema _ v0 e hc]
      rw [hp]
      simp [suiteHooks, hEach, hErr]
  · intro msg h
    have hd : doTest opts v t schema load =
        testException opts v t schema (resolveData load t) msg := by
      rw [doTest, h]
    refine ⟨by rw [hd, testException_events], ?_⟩
    intro r hm
    rw [hd, testException_events] at hm
    rcases hm with hm | hm <;> rcases List.mem_append.mp hm with hin | hin
    · exact mem_suiteHooks_afterEach opts _ v schema _ t JSVal.undef none r hin
    · simp at hin
    · exact mem_suiteHooks_afterError opts _ v schema _ t JSVal.undef none r hin
    · simp at hin

/-- Fixture: a synchronous validator returning `true` with no errors. -/
def vTrue : Validator :=
  { retValue := JSVal.bool true, thenable := none, errors := ErrList.null }

/-- C10 witness: a mismatch (`true` computed, `false` expected) with both
hooks configured fires `afterEach` then `afterError` between the two
assertions. -/
theorem c10_hook_ordering_witness :
    (doTest opts0 vTrue t0 SchemaV.sundef jsLoad).events =
      [Event.assertBool true,
       Event.afterEach
         (TRes.mk false vTrue SchemaV.sundef (resolveData jsLoad t0)
           (computedValid opts0 t0 (resolveData jsLoad t0) (JSVal.bool true))
           t0.valid t0.error (some ErrList.null)),
       Event.afterError
         (TRes.mk false vTrue SchemaV.sundef (resolveData jsLoad t0)
           (computedValid opts0 t0 (resolveData jsLoad t0) (JSVal.bool true))
           t0.valid t0.error (some ErrList.null)),
       Event.assertEqual
         (computedValid opts0 t0 (resolveData jsLoad t0) (JSVal.bool true)) t0.valid] :=
  ((c10_hook_ordering opts0 vTrue t0 SchemaV.sundef jsLoad).1 (JSVal.bool true)
    ErrList.null (by decide)).2 (by decide) rfl rfl (by decide)

/-! ### String lemmas for the folder-capture pattern (claim C8) -/

theorem isW_ne_slash {ch : Char} (h : isW ch = true) : ch ≠ '/' := by
  intro he
  subst he
  simp [isW] at h

theorem takeW_append (xs : List Char) (y : Char) (r : List Char)
    (hxs : ∀ ch ∈ xs, isW ch = true) (hy : isW y = false) :
    takeW (xs ++ (y :: r)) = (xs, y :: r) := by
  induction xs with
  | nil => simp [takeW, hy]
  | cons x xs ih =>
    have hx : isW x = true := hxs x (List.mem_cons_self x xs)
    have ih2 := ih (fun ch hch => hxs ch (List.mem_cons_of_mem x hch))
    simp [takeW, hx, ih2]

theorem matchAt_cons_not_W {ch : Char} (r : List Char) (h : isW ch = false) :
    matchAt (ch :: r) = none := by
  simp [matchAt, takeW, h]

theorem hasPfx_json_slash (r : List Char) : hasPfx jsonExt ('/' :: r) = false := by
  simp [jsonExt, hasPfx]

theorem matchAt_folder (b c : List Char) (hb : b ≠ []) (hbW : ∀ ch ∈ b, isW ch = true)
    (hc : c ≠ []) (hcW : ∀ ch ∈ c, isW ch = true) :
    matchAt (b ++ ('/' :: (c ++ jsonExt))) = some (b ++ [ '/' ]) := by
  have h1 : takeW (b ++ ('/' :: (c ++ jsonExt))) = (b, '/' :: (c ++ jsonExt)) :=
    takeW_append b '/' (c ++ jsonExt) hbW (by decide)
  have h2 : takeW (c ++ jsonExt) = (c, jsonExt) :=
    takeW_append c '.' [ 'j', 's', 'o', 'n' ] hcW (by decide)
  simp only [List.cons_append, List.nil_append] at h1 h2
  simp [matchAt, h1, h2, hb, hc]
  decide

theorem matchAt_fail_within (xs b c : List Char)
    (hxsW : ∀ ch ∈ xs, isW ch = true) (hbW : ∀ ch ∈ b, isW ch = true) :
    matchAt (xs ++ ('/' :: (b ++ ('/' :: (c ++ jsonExt))))) = none := by
  cases xs with
  | nil => exact matchAt_cons_not_W _ (by decide)
  | cons x xs =>
    have h1 : takeW ((x :: xs) ++ ('/' :: (b ++ ('/' :: (c ++ jsonExt))))) =
        (x :: xs, '/' :: (b ++ ('/' :: (c ++ jsonExt)))) :=
      takeW_append (x :: xs) '/' _ hxsW (by decide)
    have h2 : takeW (b ++ ('/' :: (c ++ jsonExt))) = (b, '/' :: (c ++ jsonExt)) :=
      takeW_append b '/' _ hbW (by decide)
    cases hb0 : b with
    | nil =>
      subst hb0
      simp only [List.cons_append, List.nil_append] at h1 h2
      simp [matchAt, h1, h2]
    | cons b0 bs =>
      subst hb0
      simp only [List.cons_append, List.nil_append] at h1 h2
      simp [matchAt, h1, h2, hasPfx_json_slash]

theorem findMatch_skip (xs rest : List Char)
    (hxsW : ∀ ch ∈ xs, isW ch = true)
    (hfail : ∀ ys : List Char, (∀ ch ∈ ys, isW ch = true) →
      matchAt (ys ++ ('/' :: rest)) = none) :
    findMatch (xs ++ ('/' :: rest)) = findMatch rest := by
  induction xs with
  | nil =>
    have h := hfail [] (by intro ch hch; cases hch)
    simp only [List.nil_append] at h ⊢
    simp only [findMatch]
    rw [h]
  | cons x xs ih =>
    have h := hfail (x :: xs) hxsW
    have ih2 := ih (fun ch hch => hxsW ch (List.mem_cons_of_mem x hch))
    simp only [List.cons_append] at h ⊢
    simp only [findMatch]
    rw [h]
    exact ih2

theorem findMatch_full (a b c : List Char)
    (haW : ∀ ch ∈ a, isW ch = true)
    (hb : b ≠ []) (hbW : ∀ ch ∈ b, isW ch = true)
    (hc : c ≠ []) (hcW : ∀ ch ∈ c, isW ch = true) :
    findMatch (a ++ ('/' :: (b ++ ('/' :: (c ++ jsonExt))))) = some (b ++ [ '/' ]) := by
  rw [findMatch_skip a _ haW (fun ys hys => matchAt_fail_within ys b c hys hbW)]
  cases hb0 : b with
  | nil => exact absurd hb0 hb
  | cons b0 bs =>
    subst hb0
    have hm := matchAt_folder (b0 :: bs) c (by simp) hbW hc hcW
    simp only [List.cons_append] at hm ⊢
    simp only [findMatch]
    rw [hm]

theorem takeWhile_append_stop (p : Char → Bool) (xs : List Char) (y : Char) (r : List Char)
    (hxs : ∀ x ∈ xs, p x = true) (hy : p y = false) :
    (xs ++ (y :: r)).takeWhile p = xs := by
  induction xs with
  | nil => simp [List.takeWhile_cons, hy]
  | cons x xs ih =>
    have hx := hxs x (List.mem_cons_self x xs)
    simp [List.takeWhile_cons, hx, ih (fun z hz => hxs z (List.mem_cons_of_mem x hz))]

theorem lastComponent_full (a b c : List Char) (hcW : ∀ ch ∈ c, isW ch = true) :
    lastComponent (a ++ ('/' :: (b ++ ('/' :: (c ++ jsonExt))))) = c ++ jsonExt := by
  have hrev : (a ++ ('/' :: (b ++ ('/' :: (c ++ jsonExt))))).reverse
      = (c ++ jsonExt).reverse ++ ('/' :: (b.reverse ++ ('/' :: a.reverse))) := by
    simp
  have hp : ∀ x ∈ (c ++ jsonExt).reverse, (decide (x ≠ '/')) = true := by
    intro x hx
    rw [List.mem_reverse] at hx
    rcases List.mem_append.mp hx with hx | hx
    · exact decide_eq_true (isW_ne_slash (hcW x hx))
    · fin_cases hx <;> decide
  unfold lastComponent
  rw [hrev, takeWhile_append_stop _ _ '/' _ hp (by decide)]
  simp

theorem hasPfx_append_self (xs r : List Char) : hasPfx xs (xs ++ r) = true := by
  induction xs with
  | nil => rfl
  | cons x xs ih => simp [hasPfx, ih]

theorem basenameExt_full (a b c : List Char) (hc : c ≠ [])
    (hcW : ∀ ch ∈ c, isW ch = true) :
    basenameExt jsonExt (a ++ ('/' :: (b ++ ('/' :: (c ++ jsonExt))))) = c := by
  unfold basenameExt
  rw [lastComponent_full a b c hcW]
  have hne : ¬(c ++ jsonExt = jsonExt) := by
    intro h
    have h2 := congrArg List.length h
    simp [jsonExt] at h2
    exact hc h2
  rw [if_neg hne]
  have hsfx : hasSfx jsonExt (c ++ jsonExt) = true := by
    unfold hasSfx
    rw [List.reverse_append]
    exact hasPfx_append_self jsonExt.reverse c.reverse
  rw [if_pos hsfx]
  have hlen : (c ++ jsonExt).length - jsonExt.length = c.length := by
    simp [jsonExt]
  rw [hlen]
  exact List.take_left c jsonExt

/-- C8: a discovered relative path of the shape `a/b/c.json` (word-character
segments) gets the display name `b/c` — the captured single-level parent
folder plus the basename without the `.json` extension — and just `c` when
`options.hideFolder` equals the captured folder `b/`; `getTestFiles` pairs
this name with the `cwd`-joined path for every matched file. -/
theorem c8_pattern_suite_name (a b c : List Char)
    (haW : ∀ ch ∈ a, isW ch = true)
    (hb : b ≠ []) (hbW : ∀ ch ∈ b, isW ch = true)
    (hc : c ≠ []) (hcW : ∀ ch ∈ c, isW ch = true) :
    deriveName none (String.mk (a ++ ('/' :: (b ++ ('/' :: (c ++ jsonExt)))))) =
      String.mk (b ++ ('/' :: c)) ∧
    deriveName (some (String.mk (b ++ [ '/' ])))
        (String.mk (a ++ ('/' :: (b ++ ('/' :: (c ++ jsonExt)))))) = String.mk c ∧
    (∀ (opts : ROpts) (files : List String),
      getTestFiles opts files = files.map (fun f =>
        { path := opts.cwd ++ "/" ++ f, name := deriveName opts.hideFolder f })) := by
  have htl : (String.mk (a ++ ('/' :: (b ++ ('/' :: (c ++ jsonExt)))))).toList
      = a ++ ('/' :: (b ++ ('/' :: (c ++ jsonExt)))) := rfl
  have hfm := findMatch_full a b c haW hb hbW hc hcW
  have hbase := basenameExt_full a b c hc hcW
  refine ⟨?_, ?_, fun _ _ => rfl⟩
  · unfold deriveName
    rw [htl, hfm, hbase]
    show String.mk (b ++ [ '/' ]) ++ String.mk c = String.mk (b ++ ('/' :: c))
    have : (b ++ [ '/' ]) ++ c = b ++ ('/' :: c) := by simp
    calc String.mk (b ++ [ '/' ]) ++ String.mk c
        = String.mk ((b ++ [ '/' ]) ++ c) := rfl
      _ = String.mk (b ++ ('/' :: c)) := by rw [this]
  · have hfolder_ne : String.mk (b ++ [ '/' ]) ≠ "" := by
      intro h
      have h2 : b ++ [ '/' ] = [] := congrArg String.data h
      simp at h2
    have happ : hideFolderApplies (some (String.mk (b ++ [ '/' ])))
        (String.mk (b ++ [ '/' ])) = true := by
      unfold hideFolderApplies
      exact decide_eq_true ⟨hfolder_ne, rfl⟩
    unfold deriveName
    rw [htl, hfm, hbase]
    show (if hideFolderApplies (some (String.mk (b ++ [ '/' ])))
            (String.mk (b ++ [ '/' ])) = true
          then "" else String.mk (b ++ [ '/' ])) ++ String.mk c = String.mk c
    rw [happ]
    show ( "" : String) ++ String.mk c = String.mk c
    rfl

/-- C8 witness: the concrete path `a/b/c.json` yields `b/c`, and `c` when
`hideFolder` is `b/`. -/
theorem c8_pattern_suite_name_witness :
    deriveName none "a/b/c.json" = "b/c" ∧
    deriveName (some "b/") "a/b/c.json" = "c" := by
  have h := c8_pattern_suite_name [ 'a' ] [ 'b' ] [ 'c' ]
    (by decide) (by decide) (by decide) (by decide) (by decide)
  exact ⟨h.1, h.2.1⟩

end JsonSchemaTest
